import Mathlib

/-!
Verification development for the RevolutionAgent repository.

The Python sources under `revolution/` are shallowly embedded here:
pure functions become Lean functions, the filesystem (lesson store,
target artifacts, pid file) becomes explicit association-list state
threaded through each operation, and subprocess/git calls become
oracle fields of an explicit repository state.  Text files are modeled
as `String` over newline-separated content (`\n` line boundaries, the
only boundary the code itself ever writes).
-/

set_option maxRecDepth 20000

namespace Revolution

/-! ### String primitives

`str.splitlines`, `str.split`, `str.strip`, `int(...)`, `startswith`
are modeled structurally on `List Char` so that every definition
evaluates inside the kernel. -/

/-- Model of Python `len(s.splitlines())`'s underlying split for
newline-separated text: the list of lines of a character list, with a
trailing newline not producing a final empty line. -/
def splitlinesList : List Char → List (List Char)
  | [] => []
  | c :: rest =>
    if c = '\n' then [] :: splitlinesList rest
    else
      match splitlinesList rest with
      | [] => [[c]]
      | h :: t => (c :: h) :: t

/-- Number of lines of a string, as Python `len(s.splitlines())`. -/
def lineCount (s : String) : Nat := (splitlinesList s.data).length

/-- Model of Python `s.startswith(p)`. -/
def strStarts (s p : String) : Bool := p.data.isPrefixOf s.data

/-- Model of Python `s.split(sep)` for a single-character separator:
always returns at least one (possibly empty) piece. -/
def splitChars : List Char → Char → List (List Char)
  | [], _ => [[]]
  | c :: rest, sep =>
    if c = sep then [] :: splitChars rest sep
    else
      match splitChars rest sep with
      | [] => [[c]]
      | h :: t => (c :: h) :: t

/-- Whitespace predicate used by the model of Python `str.strip()`. -/
def isSpaceChar (c : Char) : Bool :=
  c = ' ' || c = '\t' || c = '\n' || c = '\r'

/-- Model of Python `s.strip()` on character lists. -/
def trimChars (l : List Char) : List Char :=
  ((l.dropWhile isSpaceChar).reverse.dropWhile isSpaceChar).reverse

/-- Accumulator pass of decimal parsing: succeeds only when every
character is an ASCII digit. -/
def digitsToNatAux : List Char → Nat → Option Nat
  | [], acc => some acc
  | c :: rest, acc =>
    if 48 ≤ c.toNat ∧ c.toNat ≤ 57 then
      digitsToNatAux rest (acc * 10 + (c.toNat - 48))
    else none

/-- Model of Python `int(text)` on an already-stripped character list:
an optional sign followed by at least one decimal digit; anything else
raises `ValueError`, modeled as `none`. -/
def parseIntChars : List Char → Option Int
  | [] => none
  | '-' :: rest =>
    if rest = [] then none
    else (digitsToNatAux rest 0).map (fun n => -(n : Int))
  | '+' :: rest =>
    if rest = [] then none
    else (digitsToNatAux rest 0).map (fun n => (n : Int))
  | l => (digitsToNatAux l 0).map (fun n => (n : Int))

/-- Model of `int(pp.read_text().strip())` in `scheduler.py`. -/
def parsePid (s : String) : Option Int := parseIntChars (trimChars s.data)

/-- ASCII digit character for `n % 10`. -/
def digitChar (n : Nat) : Char := Char.ofNat (48 + n % 10)

/-- Lexicographic comparison of character lists by code point, used to
model `sorted(...)` over lesson file names. -/
def charListLe : List Char → List Char → Bool
  | [], _ => true
  | _ :: _, [] => false
  | a :: as, b :: bs =>
    if a.toNat < b.toNat then true
    else if b.toNat < a.toNat then false
    else charListLe as bs

/-- A concrete artifact content consisting of lines `"x"` separated by
newlines (no trailing newline): `mkLinesData n` has `n` lines. -/
def mkLinesData : Nat → List Char
  | 0 => []
  | 1 => ['x']
  | n + 2 => 'x' :: '\n' :: mkLinesData (n + 1)

/-- String view of `mkLinesData`. -/
def mkLines (n : Nat) : String := String.mk (mkLinesData n)

/-! ### Association-list state

The lesson directory, the artifact tree and the scheduler's paths are
file-keyed maps; `write` replaces the first binding of the key or
appends a new one (one file per path). -/

/-- Lookup of the first binding of a key. -/
def alRead {α : Type} : List (String × α) → String → Option α
  | [], _ => none
  | (q, v) :: rest, p => if q = p then some v else alRead rest p

/-- Overwrite the first binding of a key, or append a new binding. -/
def alWrite {α : Type} : List (String × α) → String → α → List (String × α)
  | [], p, v => [(p, v)]
  | (q, w) :: rest, p, v =>
    if q = p then (p, v) :: rest else (q, w) :: alWrite rest p v

/-- A plain-text file tree: path to content. -/
abbrev FS := List (String × String)

/-! ### Lesson data model (`capture.py`) -/

/-- The category to target-path table `CATEGORY_MAP` of `capture.py`. -/
def CATEGORY_MAP : List (String × String) :=
  [("python/dependency", "rules/coding_guide.md"),
   ("python/syntax", "rules/coding_guide.md"),
   ("python/runtime", "rules/coding_guide.md"),
   ("js/dependency", "rules/coding_guide.md"),
   ("js/syntax", "rules/coding_guide.md"),
   ("security/api", "rules/safety.md"),
   ("security/auth", "rules/safety.md"),
   ("security/injection", "rules/safety.md"),
   ("architecture/structure", "skills/deep_scan/SKILL.md"),
   ("architecture/pattern", "skills/deep_scan/SKILL.md"),
   ("testing/unit", "skills/browser_test/SKILL.md"),
   ("testing/ui", "skills/browser_test/SKILL.md"),
   ("testing/integration", "skills/browser_test/SKILL.md"),
   ("workflow/pdca", "rules/pdca_workflow.md"),
   ("workflow/git", "rules/memory.md"),
   ("interaction/prompt", "rules/interaction.md"),
   ("model/config", "rules/model_router.md")]

/-- Model of `CATEGORY_MAP.get(category)`. -/
def categoryTarget (c : String) : Option String :=
  (CATEGORY_MAP.find? (fun p => p.1 == c)).map (fun p => p.2)

/-- One lesson record, the JSON object written by `create_lesson`. -/
structure LessonRec where
  id : String
  error : String
  solution : String
  category : String
  tags : List String
  target_rule : Option String
  target_skill : Option String
  applied : Bool
  applied_at : Option String
  source_env : String
  created_at : String
deriving DecidableEq

/-- The lesson directory: file name to parsed record (well-formed
JSON files; `list_lessons` silently skips unreadable ones). -/
abbrev LessonStore := List (String × LessonRec)

/-- A wall-clock instant as read by `datetime.now()`; only the fields
used by `strftime` plus seconds (which the minute-resolution id format
discards) are modeled.  Fields are assumed to be in calendar ranges,
so each two-digit field prints zero-padded. -/
structure CTime where
  y : Nat
  m : Nat
  d : Nat
  hh : Nat
  mm : Nat
  ss : Nat
deriving DecidableEq

/-- Model of `_now_id`: `now.strftime("%y%m%d-%H%M")`, two zero-padded
digits per field with a dash before the hour. -/
def fmtMinute (t : CTime) : String :=
  String.mk
    [digitChar (t.y % 100 / 10), digitChar (t.y % 100),
     digitChar (t.m / 10), digitChar t.m,
     digitChar (t.d / 10), digitChar t.d, '-',
     digitChar (t.hh / 10), digitChar t.hh,
     digitChar (t.mm / 10), digitChar t.mm]

/-- Model of `category.split("/")[-1] if "/" in category else category`
in `create_lesson`. -/
def topicOf (c : String) : String :=
  if c.data.contains '/' then
    String.mk ((splitChars c.data '/').getLastD c.data)
  else c

/-- Model of `create_lesson` (`capture.py`).  The current time, the
environment name and the ISO timestamp are explicit inputs; the store
is the lessons directory.  Returns the written file name and the new
store; `out.write_text` overwrites an existing file of the same name. -/
def create_lesson (error solution category : String) (tags : List String)
    (t : CTime) (env iso : String) (store : LessonStore) :
    String × LessonStore :=
  let lesson_id := fmtMinute t ++ "_" ++ topicOf category
  let target := categoryTarget category
  let base : LessonRec :=
    { id := lesson_id, error := error, solution := solution,
      category := category, tags := tags, target_rule := target,
      target_skill := none, applied := false, applied_at := none,
      source_env := env, created_at := iso }
  let rec1 :=
    if strStarts (target.getD "") "skills/" then
      { base with target_skill := target, target_rule := none }
    else base
  let key := lesson_id ++ ".json"
  (key, alWrite store key rec1)

/-- Model of `list_lessons(only_pending=True)`: file names sorted,
records with `applied` truthy skipped, each paired with its path. -/
def pendingOf (store : LessonStore) : List (String × LessonRec) :=
  (store.mergeSort (fun a b => charListLe a.1.data b.1.data)).filter
    (fun kr => !kr.2.applied)

/-! ### Classifier (`analyzer.py`) -/

/-- The dict returned by `analyze_lesson`. -/
structure Analysis where
  id : String
  category : String
  target : Option String
  target_type : String
  action : String
  ready : Bool
deriving DecidableEq

/-- Model of `analyze_lesson`: look the category up in `CATEGORY_MAP`;
`if target:` is Python truthiness (absent or empty is falsy). -/
def analyze_lesson (l : LessonRec) : Analysis :=
  match categoryTarget l.category with
  | some t =>
    if t ≠ "" then
      { id := l.id, category := l.category, target := some t,
        target_type := if strStarts t "skills/" then "skill" else "rule",
        action := "append", ready := true }
    else
      { id := l.id, category := l.category, target := some t,
        target_type := "unknown", action := "manual", ready := false }
  | none =>
    { id := l.id, category := l.category, target := none,
      target_type := "unknown", action := "manual", ready := false }

/-! ### Patch engine (`applier.py`) -/

/-- The fixed ceiling `MAX_LINES` of `applier.py`. -/
def MAX_LINES : Nat := 1000

/-- Model of `"\n".join(lines)` and `", ".join(tags)`. -/
def joinWith (sep : String) : List String → String
  | [] => ""
  | [s] => s
  | s :: rest => s ++ sep ++ joinWith sep rest

/-- Model of `_build_patch_block`: blank separator, bold header with id
and category, error and solution bullets, optional tag bullet, joined
by newlines with one trailing newline. -/
def _build_patch_block (l : LessonRec) : String :=
  let header := "- **[Revolution " ++ l.id ++ "]** `" ++ l.category ++ "`:"
  let errLine := "  - 문제: " ++ l.error
  let solLine := "  - 해결: " ++ l.solution
  let base := ["", header, errLine, solLine]
  let lines :=
    if l.tags ≠ [] then base ++ ["  - 태그: " ++ joinWith ", " l.tags]
    else base
  joinWith "\n" lines ++ "\n"

/-- Model of `_backup_file`'s path: for the artifact paths in play
(every `CATEGORY_MAP` value has a plain suffix),
`target.with_suffix(target.suffix + ".bak")` appends `.bak`. -/
def backupPath (p : String) : String := p ++ ".bak"

/-- Result dict of `apply_lesson`; fields absent from the Python dict
are `none`. -/
structure ApplyResult where
  id : String
  success : Bool
  reason : Option String
  target : Option String
  backup : Option String
  lines_added : Option Nat
deriving DecidableEq

/-- The failure dict `{id, success: False, reason}`. -/
def failResult (id reason : String) : ApplyResult :=
  { id := id, success := false, reason := some reason,
    target := none, backup := none, lines_added := none }

/-- Full target path `gemini_dir / target_rel` (POSIX join). -/
def targetPathOf (dir : String) (l : LessonRec) : String :=
  dir ++ "/" ++ (analyze_lesson l).target.getD ""

/-- The size-limit failure message with the two counts interpolated. -/
def sizeLimitMsg (currentLines patchLines : Nat) : String :=
  "1000라인 초과 (" ++ toString currentLines ++ " + " ++
    toString patchLines ++ ")"

/-- Model of `apply_lesson`: classify, check the target exists, check
the ceiling, back up, append.  The artifact tree is explicit state;
the returned tree reflects the backup copy and the append. -/
def apply_lesson (l : LessonRec) (dir : String) (fs : FS) :
    ApplyResult × FS :=
  let analysis := analyze_lesson l
  if ¬ analysis.ready then
    (failResult l.id "적용 대상을 결정할 수 없습니다.", fs)
  else
    let target_rel := analysis.target.getD ""
    let target_path := dir ++ "/" ++ target_rel
    match alRead fs target_path with
    | none => (failResult l.id ("대상 파일 없음: " ++ target_rel), fs)
    | some content =>
      let current_lines := lineCount content
      let patch := _build_patch_block l
      let patch_lines := lineCount patch
      if current_lines + patch_lines > MAX_LINES then
        (failResult l.id (sizeLimitMsg current_lines patch_lines), fs)
      else
        let bak := backupPath target_path
        let fs1 := alWrite fs bak content
        let fs2 := alWrite fs1 target_path (content ++ patch)
        ({ id := l.id, success := true, reason := none,
           target := some target_rel, backup := some bak,
           lines_added := some patch_lines }, fs2)

/-- Model of `mark_applied`: re-read the lesson file at its path, set
`applied` and `applied_at`, write it back; missing file is a no-op. -/
def mark_applied (store : LessonStore) (path : String) (now : String) :
    LessonStore :=
  match alRead store path with
  | none => store
  | some d =>
    alWrite store path { d with applied := true, applied_at := some now }

/-- The record after `mark_applied` touches it. -/
def markRec (r : LessonRec) (now : String) : LessonRec :=
  { r with applied := true, applied_at := some now }

/-- The loop body of `apply_all` over the listed pending lessons:
unready lessons get a manual-handling failure, unapproved ones a
refusal, otherwise `apply_lesson` runs and a success is immediately
marked applied.  `approve` is the user's per-lesson answer to
`_prompt_approve`, consulted only when `auto` is false. -/
def apply_list (now dir : String) (auto : Bool) (approve : String → Bool) :
    List (String × LessonRec) → LessonStore → FS →
    List ApplyResult × LessonStore × FS
  | [], store, arts => ([], store, arts)
  | (k, l) :: rest, store, arts =>
    let analysis := analyze_lesson l
    if ¬ analysis.ready then
      let out := apply_list now dir auto approve rest store arts
      (failResult l.id "수동 처리 필요" :: out.1, out.2)
    else if ¬ auto ∧ ¬ approve l.id then
      let out := apply_list now dir auto approve rest store arts
      (failResult l.id "사용자가 거부함" :: out.1, out.2)
    else
      let ra := apply_lesson l dir arts
      let store' := if ra.1.success then mark_applied store k now else store
      let out := apply_list now dir auto approve rest store' ra.2
      (ra.1 :: out.1, out.2)

/-- Model of `apply_all`: run the loop over `list_lessons(pending)`. -/
def apply_all (now dir : String) (auto : Bool) (approve : String → Bool)
    (store : LessonStore) (arts : FS) :
    List ApplyResult × LessonStore × FS :=
  apply_list now dir auto approve (pendingOf store) store arts

/-! ### Sync engine (`syncer.py`) and orchestrator (`cli.py`)

Git itself is external: the repository state carries oracle fields for
the outcomes of `git pull --rebase`, `git commit`, `git push`, and a
snapshot `head` of the last committed working tree, so that
`git status --porcelain` is empty exactly when the current tree equals
`head`.  A successful pull is modeled as bringing nothing new (the
claims quantify over runs with no intervening remote activity). -/

/-- The local working tree the pipeline mutates and commits. -/
structure Tree where
  lessons : LessonStore
  arts : FS
deriving DecidableEq

/-- Repository state plus outcome oracles for the git subprocesses. -/
structure Repo where
  isRepo : Bool
  pullFails : Bool
  commitFails : Bool
  pushFails : Bool
  head : Option Tree
  commitCount : Nat
deriving DecidableEq

/-- Outcome dict of a sync operation. -/
structure SyncResult where
  success : Bool
  message : String
deriving DecidableEq

/-- Model of `sync_pull`: fail fast when not a repository, else the
rebase-pull outcome. -/
def sync_pull (r : Repo) : SyncResult :=
  if ¬ r.isRepo then { success := false, message := "Git 저장소가 아닙니다." }
  else if r.pullFails then { success := false, message := "pull 실패" }
  else { success := true, message := "pull 완료" }

/-- Model of `sync_push`: nothing to do when the tree is clean, else
stage, commit (may fail), push (may fail; the commit remains). -/
def sync_push (r : Repo) (tree : Tree) : SyncResult × Repo :=
  if ¬ r.isRepo then ({ success := false, message := "Git 저장소가 아닙니다." }, r)
  else if r.head = some tree then ({ success := true, message := "변경사항 없음." }, r)
  else if r.commitFails then ({ success := false, message := "commit 실패" }, r)
  else
    let r' := { r with head := some tree, commitCount := r.commitCount + 1 }
    if r.pushFails then ({ success := false, message := "push 실패" }, r')
    else ({ success := true, message := "push 완료" }, r')

/-- The whole mutable world of one environment. -/
structure World where
  repo : Repo
  store : LessonStore
  arts : FS
deriving DecidableEq

/-- What one `cmd_run` invocation reported. -/
structure RunReport where
  pull : SyncResult
  results : List ApplyResult
  push : Option SyncResult
deriving DecidableEq

/-- Count of `ready` analyses, the `ready_to_apply` summary field. -/
def readyCount (store : LessonStore) : Nat :=
  ((pendingOf store).map (fun kr => analyze_lesson kr.2)).countP
    (fun a => a.ready)

/-- Model of `cmd_run` (`cli.py`): pull, abort on pull failure; analyze,
abort when nothing is ready; apply all; push the resulting tree. -/
def cmd_run (auto : Bool) (approve : String → Bool) (now dir : String)
    (w : World) : RunReport × World :=
  let pull := sync_pull w.repo
  if ¬ pull.success then
    ({ pull := pull, results := [], push := none }, w)
  else if readyCount w.store = 0 then
    ({ pull := pull, results := [], push := none }, w)
  else
    let out := apply_all now dir auto approve w.store w.arts
    let pushed := sync_push w.repo { lessons := out.2.1, arts := out.2.2 }
    ({ pull := pull, results := out.1, push := some pushed.1 },
     { repo := pushed.2, store := out.2.1, arts := out.2.2 })

/-! ### Scheduler process management (`scheduler.py`)

The pid file and the OS process table are explicit state; `os.kill`
and the Windows `taskkill`/`tasklist` subprocesses act on the list of
live pids.  Permission errors are not modeled (killing or probing a
live pid succeeds); the Windows `tasklist` CSV containment check is
modeled as exact liveness of the pid. -/

/-- The platform branch taken by `platform.system()`. -/
inductive Platform where
  | windows : Platform
  | posix : Platform
deriving DecidableEq

/-- Scheduler-relevant state: the platform, the contents of
`.scheduler.pid` when it exists, and the live process table. -/
structure SchedState where
  platform : Platform
  pidFile : Option String
  alive : List Int
deriving DecidableEq

/-- Outcome dict of a scheduler lifecycle operation. -/
structure OpResult where
  success : Bool
  message : String
deriving DecidableEq

/-- Model of `stop`: no pid file reports not running; an unparsable
pid raises `ValueError`, caught after which the file is removed and
failure reported; on POSIX `os.kill(pid, 9)` of a dead pid raises
`ProcessLookupError`, caught likewise; on Windows `taskkill` is run
without a check so a dead pid still ends in the success branch. -/
def stop (st : SchedState) : OpResult × SchedState :=
  match st.pidFile with
  | none =>
    ({ success := false, message := "실행 중인 스케줄러가 없습니다." }, st)
  | some s =>
    match parsePid s with
    | none =>
      ({ success := false, message := "중지 실패: ValueError" },
       { st with pidFile := none })
    | some pid =>
      match st.platform with
      | .windows =>
        ({ success := true, message := "스케줄러 중지됨" },
         { st with pidFile := none,
                   alive := st.alive.filter (fun q => q ≠ pid) })
      | .posix =>
        if pid ∈ st.alive then
          ({ success := true, message := "스케줄러 중지됨" },
           { st with pidFile := none,
                     alive := st.alive.filter (fun q => q ≠ pid) })
        else
          ({ success := false, message := "중지 실패: ProcessLookupError" },
           { st with pidFile := none })

/-- Model of `is_running`: no pid file is not-running; an unparsable
pid or (on POSIX) a dead pid removes the file and reports false; on
Windows the `tasklist` probe reports false for a dead pid without any
cleanup; a live pid reports true. -/
def is_running (st : SchedState) : Bool × SchedState :=
  match st.pidFile with
  | none => (false, st)
  | some s =>
    match parsePid s with
    | none => (false, { st with pidFile := none })
    | some pid =>
      match st.platform with
      | .windows => (decide (pid ∈ st.alive), st)
      | .posix =>
        if pid ∈ st.alive then (true, st)
        else (false, { st with pidFile := none })

/-! ### Association-list lemmas -/

theorem alRead_alWrite_self {α : Type} (l : List (String × α)) (p : String)
    (v : α) : alRead (alWrite l p v) p = some v := by
  induction l with
  | nil => simp [alWrite, alRead]
  | cons hd tl ih =>
    obtain ⟨q, w⟩ := hd
    by_cases hq : q = p
    · simp [alWrite, hq, alRead]
    · simp [alWrite, hq, alRead, ih]

theorem alRead_alWrite_ne {α : Type} (l : List (String × α)) (p q : String)
    (v : α) (h : q ≠ p) : alRead (alWrite l p v) q = alRead l q := by
  have hpq : p ≠ q := Ne.symm h
  induction l with
  | nil => simp [alWrite, alRead, hpq]
  | cons hd tl ih =>
    obtain ⟨r, w⟩ := hd
    by_cases hr : r = p
    · subst hr
      simp [alWrite, alRead, hpq]
    · simp [alWrite, hr, alRead, ih]

theorem alWrite_keys_of_read {α : Type} (l : List (String × α)) (p : String)
    (v w : α) (h : alRead l p = some w) :
    (alWrite l p v).map Prod.fst = l.map Prod.fst := by
  induction l with
  | nil => simp [alRead] at h
  | cons hd tl ih =>
    obtain ⟨q, u⟩ := hd
    by_cases hq : q = p
    · simp [alWrite, hq]
    · simp [alRead, hq] at h
      simp [alWrite, hq, ih h]

theorem alRead_eq_some_of_mem {α : Type} {l : List (String × α)}
    {k : String} {r : α} (hnd : (l.map Prod.fst).Nodup) (hm : (k, r) ∈ l) :
    alRead l k = some r := by
  induction l with
  | nil => simp at hm
  | cons hd tl ih =>
    obtain ⟨q, u⟩ := hd
    simp only [List.map_cons, List.nodup_cons] at hnd
    rcases List.mem_cons.mp hm with heq | hmem
    · obtain ⟨h1, h2⟩ := Prod.mk.injEq .. ▸ heq
      simp_all [alRead]
    · have hk : q ≠ k := by
        intro hqk
        exact hnd.1 (hqk ▸ (List.mem_map.mpr ⟨(k, r), hmem, rfl⟩))
      simp [alRead, hk, ih hnd.2 hmem]

theorem mem_of_alRead_eq_some {α : Type} {l : List (String × α)}
    {k : String} {r : α} (h : alRead l k = some r) : (k, r) ∈ l := by
  induction l with
  | nil => simp [alRead] at h
  | cons hd tl ih =>
    obtain ⟨q, u⟩ := hd
    by_cases hq : q = k
    · subst hq
      simp [alRead] at h
      simp [h]
    · simp [alRead, hq] at h
      exact List.mem_cons_of_mem _ (ih h)

/-! ### Line-count lemmas -/

theorem splitlinesList_eq_nil_iff (l : List Char) :
    splitlinesList l = [] ↔ l = [] := by
  constructor
  · intro h
    cases l with
    | nil => rfl
    | cons c rest =>
      by_cases hc : c = '\n'
      · simp [splitlinesList, hc] at h
      · simp only [splitlinesList, hc, if_neg hc] at h
        revert h
        cases splitlinesList rest <;> simp
  · intro h
    subst h
    rfl

theorem splitlinesList_length_pos (c : Char) (l : List Char) :
    1 ≤ (splitlinesList (c :: l)).length := by
  by_cases hc : c = '\n'
  · simp [splitlinesList, hc]
  · simp only [splitlinesList, if_neg hc]
    cases splitlinesList l <;> simp

theorem splitlinesList_newline_cons (l : List Char) :
    splitlinesList ('\n' :: l) = [] :: splitlinesList l := by
  simp [splitlinesList]

theorem splitlinesList_other_cons {c : Char} (hc : ¬ c = '\n')
    (l : List Char) :
    splitlinesList (c :: l) =
      match splitlinesList l with
      | [] => [[c]]
      | h :: t => (c :: h) :: t := by
  simp [splitlinesList, hc]

theorem splitlinesList_append_le (a b : List Char) :
    (splitlinesList (a ++ b)).length ≤
      (splitlinesList a).length + (splitlinesList b).length := by
  induction a with
  | nil => simp [splitlinesList]
  | cons c rest ih =>
    by_cases hc : c = '\n'
    · subst hc
      rw [List.cons_append, splitlinesList_newline_cons,
        splitlinesList_newline_cons]
      simp only [List.length_cons]
      omega
    · rw [List.cons_append, splitlinesList_other_cons hc,
        splitlinesList_other_cons hc]
      rcases hr : splitlinesList rest with _ | ⟨h1, t1⟩
      · have hrn : rest = [] := (splitlinesList_eq_nil_iff rest).mp hr
        subst hrn
        rcases hb : splitlinesList b with _ | ⟨h2, t2⟩
        · simp only [List.nil_append] at ih ⊢
          simp [hb]
        · simp only [List.nil_append] at ih ⊢
          simp only [hb, List.length_cons, List.length_nil]
          omega
      · rcases hab : splitlinesList (rest ++ b) with _ | ⟨h3, t3⟩
        · simp only [hab, hr] at ih ⊢
          simp only [List.length_cons, List.length_nil] at ih ⊢
          omega
        · simp only [hab, hr] at ih ⊢
          simp only [List.length_cons] at ih ⊢
          omega

theorem splitlinesList_le_append (a b : List Char) :
    (splitlinesList a).length ≤ (splitlinesList (a ++ b)).length := by
  induction a with
  | nil => simp [splitlinesList]
  | cons c rest ih =>
    by_cases hc : c = '\n'
    · subst hc
      rw [List.cons_append, splitlinesList_newline_cons,
        splitlinesList_newline_cons]
      simp only [List.length_cons]
      omega
    · rw [List.cons_append, splitlinesList_other_cons hc,
        splitlinesList_other_cons hc]
      rcases hr : splitlinesList rest with _ | ⟨h1, t1⟩
      · rcases hab : splitlinesList (rest ++ b) with _ | ⟨h3, t3⟩
        · simp [hab, hr]
        · simp [hab, hr]
      · rcases hab : splitlinesList (rest ++ b) with _ | ⟨h3, t3⟩
        · exfalso
          have hn : rest ++ b = [] := (splitlinesList_eq_nil_iff _).mp hab
          have hrn : rest = [] := by
            cases rest with
            | nil => rfl
            | cons x xs => simp at hn
          subst hrn
          simp [splitlinesList] at hr
        · simp only [hab, hr] at ih ⊢
          simp only [List.length_cons] at ih ⊢
          omega

theorem lineCount_append_le (a b : String) :
    lineCount (a ++ b) ≤ lineCount a + lineCount b := by
  simpa [lineCount, String.data_append] using
    splitlinesList_append_le a.data b.data

theorem lineCount_le_append (a b : String) :
    lineCount a ≤ lineCount (a ++ b) := by
  simpa [lineCount, String.data_append] using
    splitlinesList_le_append a.data b.data

theorem lineCount_mkLines (n : Nat) : lineCount (mkLines (n + 1)) = n + 1 := by
  induction n with
  | zero => rfl
  | succ m ih =>
    simp only [lineCount, mkLines, mkLinesData] at ih ⊢
    simpa [splitlinesList] using ih

/-! ### Classifier facts -/

theorem categoryTarget_values_ne_empty :
    ∀ p ∈ CATEGORY_MAP, p.2 ≠ "" := by decide

theorem categoryTarget_some_ne_empty {c t : String}
    (h : categoryTarget c = some t) : t ≠ "" := by
  simp only [categoryTarget, Option.map_eq_some'] at h
  obtain ⟨p, hp, hpt⟩ := h
  exact hpt ▸ categoryTarget_values_ne_empty p (List.mem_of_find?_eq_some hp)

/-- C7: classification is total and deterministic (it is a Lean
function of the lesson record), maps a category found in
`CATEGORY_MAP` to `ready = true`, `action = "append"`, the mapped
target and kind `skill` exactly when the target lies under `skills/`
(else `rule`), maps an unknown category to `ready = false`,
`target_type = "unknown"`, `action = "manual"` and a `none` target,
and in particular sends `"security/auth"` to a ready rule
classification targeting `rules/safety.md`. -/
theorem C7_classify_spec (l : LessonRec) :
    (∀ t, categoryTarget l.category = some t →
      (analyze_lesson l).ready = true ∧
      (analyze_lesson l).action = "append" ∧
      (analyze_lesson l).target = some t ∧
      (analyze_lesson l).target_type =
        (if strStarts t "skills/" then "skill" else "rule")) ∧
    (categoryTarget l.category = none →
      (analyze_lesson l).ready = false ∧
      (analyze_lesson l).target_type = "unknown" ∧
      (analyze_lesson l).action = "manual" ∧
      (analyze_lesson l).target = none) ∧
    (l.category = "security/auth" →
      (analyze_lesson l).ready = true ∧
      (analyze_lesson l).target_type = "rule" ∧
      (analyze_lesson l).target = some "rules/safety.md") := by
  refine ⟨?_, ?_, ?_⟩
  · intro t ht
    have hne := categoryTarget_some_ne_empty ht
    simp [analyze_lesson, ht, hne]
  · intro ht
    simp [analyze_lesson, ht]
  · intro hc
    have ht : categoryTarget l.category = some "rules/safety.md" := by
      rw [hc]; decide
    have hsk : strStarts "rules/safety.md" "skills/" = false := by decide
    simp [analyze_lesson, ht, hsk]

/-- Witness for C7 at two concrete lessons: a `"security/auth"` lesson
is ready with kind `rule` and target `rules/safety.md`, and a
`"foo/bar"` lesson is unready with kind `unknown`. -/
theorem C7_classify_spec_witness :
    (analyze_lesson
      { id := "i", error := "e", solution := "s",
        category := "security/auth", tags := [], target_rule := none,
        target_skill := none, applied := false, applied_at := none,
        source_env := "v", created_at := "c" }).ready = true ∧
    (analyze_lesson
      { id := "i", error := "e", solution := "s",
        category := "security/auth", tags := [], target_rule := none,
        target_skill := none, applied := false, applied_at := none,
        source_env := "v", created_at := "c" }).target_type = "rule" ∧
    (analyze_lesson
      { id := "j", error := "e", solution := "s",
        category := "foo/bar", tags := [], target_rule := none,
        target_skill := none, applied := false, applied_at := none,
        source_env := "v", created_at := "c" }).ready = false ∧
    (analyze_lesson
      { id := "j", error := "e", solution := "s",
        category := "foo/bar", tags := [], target_rule := none,
        target_skill := none, applied := false, applied_at := none,
        source_env := "v", created_at := "c" }).target_type = "unknown" := by
  refine ⟨?_, ?_, ?_, ?_⟩
  · exact ((C7_classify_spec _).2.2 rfl).1
  · exact ((C7_classify_spec _).2.2 rfl).2.1
  · exact ((C7_classify_spec _).2.1 (by decide)).1
  · exact ((C7_classify_spec _).2.1 (by decide)).2.1

/-! ### Patch-engine characterizations -/

theorem backupPath_ne (p : String) : ¬ backupPath p = p := by
  intro h
  have h2 : (p ++ ".bak").data.length = p.data.length := by
    rw [show p ++ ".bak" = backupPath p from rfl, h]
  rw [String.data_append] at h2
  simp at h2

/-- A successful `apply_lesson` call read some pre-content within the
ceiling and produced exactly the backup write followed by the append
write. -/
theorem apply_lesson_success_state (l : LessonRec) (dir : String) (fs : FS)
    (h : (apply_lesson l dir fs).1.success = true) :
    ∃ content, alRead fs (targetPathOf dir l) = some content ∧
      lineCount content + lineCount (_build_patch_block l) ≤ MAX_LINES ∧
      (apply_lesson l dir fs).2 =
        alWrite (alWrite fs (backupPath (targetPathOf dir l)) content)
          (targetPathOf dir l) (content ++ _build_patch_block l) ∧
      (apply_lesson l dir fs).1.backup =
        some (backupPath (targetPathOf dir l)) := by
  by_cases hready : (analyze_lesson l).ready = true
  · rcases hread : alRead fs (targetPathOf dir l) with _ | content
    · simp only [targetPathOf] at hread
      simp [apply_lesson, hready, hread, failResult] at h
    · simp only [targetPathOf] at hread
      by_cases hsz :
          lineCount content + lineCount (_build_patch_block l) > MAX_LINES
      · simp [apply_lesson, hready, hread, hsz, failResult] at h
      · refine ⟨content, ?_, by omega, ?_, ?_⟩
        · simp [targetPathOf]
        · simp [apply_lesson, targetPathOf, hready, hread, hsz]
        · simp [apply_lesson, targetPathOf, hready, hread, hsz]
  · simp [apply_lesson, hready, failResult] at h

/-- A failed `apply_lesson` call leaves the artifact tree untouched. -/
theorem apply_lesson_fail_state (l : LessonRec) (dir : String) (fs : FS)
    (h : ¬ (apply_lesson l dir fs).1.success = true) :
    (apply_lesson l dir fs).2 = fs := by
  by_cases hready : (analyze_lesson l).ready = true
  · rcases hread : alRead fs (targetPathOf dir l) with _ | content
    · simp only [targetPathOf] at hread
      simp [apply_lesson, hready, hread, failResult]
    · simp only [targetPathOf] at hread
      by_cases hsz :
          lineCount content + lineCount (_build_patch_block l) > MAX_LINES
      · simp [apply_lesson, hready, hread, hsz, failResult]
      · simp [apply_lesson, hready, hread, hsz, failResult] at h
  · simp [apply_lesson, hready, failResult]

/-- C3: when the classified target exists and its current line count
plus the rendered block's line count exceeds 1000, `apply_lesson`
fails with the size-limit reason and returns the artifact tree
unchanged (so no backup file is created and the artifact content is
byte-identical). -/
theorem C3_size_limit_no_side_effects (l : LessonRec) (dir : String)
    (fs : FS) (content : String)
    (hready : (analyze_lesson l).ready = true)
    (hread : alRead fs (targetPathOf dir l) = some content)
    (hsize : lineCount content + lineCount (_build_patch_block l) > 1000) :
    (apply_lesson l dir fs).1.success = false ∧
    (apply_lesson l dir fs).1.reason =
      some (sizeLimitMsg (lineCount content)
        (lineCount (_build_patch_block l))) ∧
    (apply_lesson l dir fs).2 = fs := by
  simp only [targetPathOf] at hread
  have hgt :
      lineCount content + lineCount (_build_patch_block l) > MAX_LINES := by
    simpa [MAX_LINES] using hsize
  refine ⟨?_, ?_, ?_⟩ <;>
    simp [apply_lesson, hready, hread, hgt, failResult]

/-- The concrete lesson of C3's witness: its rendered block has
exactly 6 lines (blank, header, two error lines, solution, tags). -/
def lessonC3 : LessonRec :=
  { id := "251012-0900_auth", error := "first line\nsecond line",
    solution := "fix", category := "security/auth", tags := ["t1", "t2"],
    target_rule := some "rules/safety.md", target_skill := none,
    applied := false, applied_at := none, source_env := "env",
    created_at := "2025" }

/-- The concrete artifact tree of C3's witness: the safety rules file
with exactly 995 lines. -/
def fsC3 : FS := [(targetPathOf "/g" lessonC3, mkLines 995)]

/-- Witness for C3: a 995-line artifact plus a 6-line block fails with
the size-limit reason and leaves the tree untouched. -/
theorem C3_size_limit_no_side_effects_witness :
    lineCount (mkLines 995) = 995 ∧
    lineCount (_build_patch_block lessonC3) = 6 ∧
    (apply_lesson lessonC3 "/g" fsC3).1.success = false ∧
    (apply_lesson lessonC3 "/g" fsC3).2 = fsC3 := by
  have h995 : lineCount (mkLines 995) = 995 := lineCount_mkLines 994
  have h6 : lineCount (_build_patch_block lessonC3) = 6 := by decide
  have hready : (analyze_lesson lessonC3).ready = true := by decide
  have hread : alRead fsC3 (targetPathOf "/g" lessonC3) =
      some (mkLines 995) := by
    simp [fsC3, alRead]
  have hsize :
      lineCount (mkLines 995) + lineCount (_build_patch_block lessonC3) >
        1000 := by
    rw [h995, h6]
    decide
  have h := C3_size_limit_no_side_effects lessonC3 "/g" fsC3 (mkLines 995)
    hready hread hsize
  exact ⟨h995, h6, h.1, h.2.2⟩

/-- C4: every successful `apply_lesson` leaves a backup file at the
target path with the `.bak` suffix added whose bytes are the pre-apply
artifact content, and the post-apply artifact equals the pre-apply
content with exactly the rendered block appended; the final tree is
literally the backup write followed by the append write, so the backup
exists before the mutation. -/
theorem C4_success_backup_then_append (l : LessonRec) (dir : String)
    (fs : FS) (h : (apply_lesson l dir fs).1.success = true) :
    ∃ content, alRead fs (targetPathOf dir l) = some content ∧
      (apply_lesson l dir fs).2 =
        alWrite (alWrite fs (backupPath (targetPathOf dir l)) content)
          (targetPathOf dir l) (content ++ _build_patch_block l) ∧
      alRead (apply_lesson l dir fs).2
        (backupPath (targetPathOf dir l)) = some content ∧
      alRead (apply_lesson l dir fs).2 (targetPathOf dir l) =
        some (content ++ _build_patch_block l) ∧
      (apply_lesson l dir fs).1.backup =
        some (backupPath (targetPathOf dir l)) := by
  obtain ⟨content, hread, _, hstate, hbak⟩ :=
    apply_lesson_success_state l dir fs h
  refine ⟨content, hread, hstate, ?_, ?_, hbak⟩
  · rw [hstate,
      alRead_alWrite_ne _ _ _ _ (backupPath_ne (targetPathOf dir l)),
      alRead_alWrite_self]
  · rw [hstate, alRead_alWrite_self]

/-- The concrete lesson of C4's witness. -/
def lessonC4 : LessonRec :=
  { id := "251012-0910_git", error := "E4", solution := "S4",
    category := "workflow/git", tags := [], target_rule :=
    some "rules/memory.md", target_skill := none, applied := false,
    applied_at := none, source_env := "env", created_at := "2025" }

/-- The concrete artifact tree of C4's witness. -/
def fsC4 : FS := [(targetPathOf "/g" lessonC4, "alpha\nbeta")]

/-- Witness for C4 at a concrete successful apply. -/
theorem C4_success_backup_then_append_witness :
    (apply_lesson lessonC4 "/g" fsC4).1.success = true ∧
    ∃ content, alRead fsC4 (targetPathOf "/g" lessonC4) = some content ∧
      (apply_lesson lessonC4 "/g" fsC4).2 =
        alWrite (alWrite fsC4 (backupPath (targetPathOf "/g" lessonC4))
          content)
          (targetPathOf "/g" lessonC4)
          (content ++ _build_patch_block lessonC4) ∧
      alRead (apply_lesson lessonC4 "/g" fsC4).2
        (backupPath (targetPathOf "/g" lessonC4)) = some content ∧
      alRead (apply_lesson lessonC4 "/g" fsC4).2
        (targetPathOf "/g" lessonC4) =
        some (content ++ _build_patch_block lessonC4) ∧
      (apply_lesson lessonC4 "/g" fsC4).1.backup =
        some (backupPath (targetPathOf "/g" lessonC4)) := by
  have hs : (apply_lesson lessonC4 "/g" fsC4).1.success = true := by decide
  obtain ⟨content, h1, h2, h3, h4, h5⟩ :=
    C4_success_backup_then_append lessonC4 "/g" fsC4 hs
  exact ⟨hs, content, h1, h2, h3, h4, h5⟩

/-- C6: after every successful `apply_lesson`, the target artifact's
line count does not exceed the fixed ceiling of 1000. -/
theorem C6_ceiling_invariant (l : LessonRec) (dir : String) (fs : FS)
    (h : (apply_lesson l dir fs).1.success = true) (c' : String)
    (hc : alRead (apply_lesson l dir fs).2 (targetPathOf dir l) = some c') :
    lineCount c' ≤ 1000 := by
  obtain ⟨content, hread, hbound, hstate, _⟩ :=
    apply_lesson_success_state l dir fs h
  rw [hstate, alRead_alWrite_self] at hc
  have hc' : c' = content ++ _build_patch_block l := by
    exact (Option.some.injEq .. ▸ hc).symm
  rw [hc']
  calc lineCount (content ++ _build_patch_block l) ≤
      lineCount content + lineCount (_build_patch_block l) :=
        lineCount_append_le _ _
    _ ≤ 1000 := by simpa [MAX_LINES] using hbound

/-- The concrete lesson of C6's witness. -/
def lessonC6 : LessonRec :=
  { id := "251012-0920_api", error := "E6", solution := "S6",
    category := "security/api", tags := [], target_rule :=
    some "rules/safety.md", target_skill := none, applied := false,
    applied_at := none, source_env := "env", created_at := "2025" }

/-- The concrete artifact tree of C6's witness. -/
def fsC6 : FS := [(targetPathOf "/g" lessonC6, "one\ntwo\nthree")]

/-- Witness for C6 at a concrete successful apply. -/
theorem C6_ceiling_invariant_witness :
    (apply_lesson lessonC6 "/g" fsC6).1.success = true ∧
    alRead (apply_lesson lessonC6 "/g" fsC6).2
      (targetPathOf "/g" lessonC6) =
      some ("one\ntwo\nthree" ++ _build_patch_block lessonC6) ∧
    lineCount ("one\ntwo\nthree" ++ _build_patch_block lessonC6) ≤ 1000 := by
  have hs : (apply_lesson lessonC6 "/g" fsC6).1.success = true := by decide
  have hr : alRead (apply_lesson lessonC6 "/g" fsC6).2
      (targetPathOf "/g" lessonC6) =
      some ("one\ntwo\nthree" ++ _build_patch_block lessonC6) := by decide
  exact ⟨hs, hr, C6_ceiling_invariant lessonC6 "/g" fsC6 hs _ hr⟩

/-! ### Scheduler lifecycle claims -/

/-- The POSIX state with a stale handle used by C1's counterexample. -/
def schedStale : SchedState :=
  { platform := .posix, pidFile := some "12345", alive := [] }

/-- C1 counterexample: on POSIX a stale handle (the pid file names
process 12345, which is not alive) makes `stop` report failure even
though it does clean the handle up, contradicting the claim that stop
reports success in this situation. -/
theorem C1_stop_claim_counterexample :
    (stop schedStale).1.success = false ∧
    (stop schedStale).2.pidFile = none := by decide

/-- C1 (amended): `stop` with no handle reports "not running" and
changes nothing; with a present handle the handle file is always
removed; a live pid is terminated and success reported; but a stale
pid on POSIX, while cleaned up, is reported as a failure rather than
the success the original claim states (on Windows `taskkill` runs
unchecked, so that branch reports success). -/
theorem C1_stop_amended (st : SchedState) :
    (st.pidFile = none →
      stop st =
        ({ success := false,
           message := "실행 중인 스케줄러가 없습니다." }, st)) ∧
    (∀ s, st.pidFile = some s → (stop st).2.pidFile = none) ∧
    (∀ s pid, st.pidFile = some s → parsePid s = some pid →
      pid ∈ st.alive →
      (stop st).1.success = true ∧ pid ∉ (stop st).2.alive) ∧
    (∀ s pid, st.pidFile = some s → parsePid s = some pid →
      st.platform = .posix → pid ∉ st.alive →
      (stop st).1.success = false ∧ (stop st).2.pidFile = none) := by
  refine ⟨?_, ?_, ?_, ?_⟩
  · intro h
    simp [stop, h]
  · intro s hs
    rcases hp : parsePid s with _ | pid
    · simp [stop, hs, hp]
    · cases hplat : st.platform
      · simp [stop, hs, hp, hplat]
      · by_cases hm : pid ∈ st.alive
        · simp [stop, hs, hp, hplat, hm]
        · simp [stop, hs, hp, hplat, hm]
  · intro s pid hs hp hm
    cases hplat : st.platform
    · refine ⟨by simp [stop, hs, hp, hplat], ?_⟩
      simp [stop, hs, hp, hplat, List.mem_filter]
    · refine ⟨by simp [stop, hs, hp, hplat, hm], ?_⟩
      simp [stop, hs, hp, hplat, hm, List.mem_filter]
  · intro s pid hs hp hplat hm
    exact ⟨by simp [stop, hs, hp, hplat, hm], by simp [stop, hs, hp, hplat, hm]⟩

/-- The POSIX state with a live pid used by C1's witness. -/
def schedLive : SchedState :=
  { platform := .posix, pidFile := some "42", alive := [42] }

/-- Witness for C1 (amended) at a live concrete pid: stop succeeds and
the pid is gone from the process table. -/
theorem C1_stop_amended_witness :
    (stop schedLive).1.success = true ∧
    (42 : Int) ∉ (stop schedLive).2.alive :=
  (C1_stop_amended schedLive).2.2.1 "42" 42 rfl (by decide) (by decide)

/-- The Windows state with a dead but parsable pid used by C10's
counterexample. -/
def schedWinDead : SchedState :=
  { platform := .windows, pidFile := some "7", alive := [] }

/-- C10 counterexample: on Windows, with a handle naming the parsable
but dead pid 7, `is_running` returns false yet leaves the handle file
in place, contradicting the claim that a false answer always deletes
the handle. -/
theorem C10_is_running_claim_counterexample :
    (is_running schedWinDead).1 = false ∧
    (is_running schedWinDead).2.pidFile = some "7" := by decide

/-- C10 (amended): on POSIX the claim holds — whenever `is_running`
answers false the handle file is gone afterwards, and both the
unparsable-pid and the dead-pid cases actively delete it (so the
liveness query is not read-only); the unparsable-pid case deletes the
handle on Windows too, but the dead-pid case on Windows returns false
without deleting. -/
theorem C10_is_running_amended (st : SchedState) :
    (st.platform = .posix → (is_running st).1 = false →
      (is_running st).2.pidFile = none) ∧
    (∀ s, st.pidFile = some s → parsePid s = none →
      (is_running st).1 = false ∧ (is_running st).2.pidFile = none) ∧
    (∀ s pid, st.pidFile = some s → parsePid s = some pid →
      st.platform = .posix → pid ∉ st.alive →
      (is_running st).1 = false ∧ (is_running st).2.pidFile = none) := by
  refine ⟨?_, ?_, ?_⟩
  · intro hplat hfalse
    rcases hs : st.pidFile with _ | s
    · simp [is_running, hs]
    · rcases hp : parsePid s with _ | pid
      · simp [is_running, hs, hp]
      · by_cases hm : pid ∈ st.alive
        · simp [is_running, hs, hp, hplat, hm] at hfalse
        · simp [is_running, hs, hp, hplat, hm]
  · intro s hs hp
    exact ⟨by simp [is_running, hs, hp], by simp [is_running, hs, hp]⟩
  · intro s pid hs hp hplat hm
    exact ⟨by simp [is_running, hs, hp, hplat, hm],
      by simp [is_running, hs, hp, hplat, hm]⟩

/-- The POSIX state with an unparsable handle used by C10's witness. -/
def schedBadPid : SchedState :=
  { platform := .posix, pidFile := some "abc", alive := [] }

/-- Witness for C10 (amended) at a concrete unparsable handle. -/
theorem C10_is_running_amended_witness :
    (is_running schedBadPid).1 = false ∧
    (is_running schedBadPid).2.pidFile = none :=
  (C10_is_running_amended schedBadPid).2.1 "abc" rfl (by decide)

/-! ### Lesson id claims -/

/-- The id string `{YYMMDD-HHMM}_{topic}` assigned by `create_lesson`. -/
def idOf (category : String) (t : CTime) : String :=
  fmtMinute t ++ "_" ++ topicOf category

theorem create_lesson_key (e s c : String) (tg : List String) (t : CTime)
    (env iso : String) (store : LessonStore) :
    (create_lesson e s c tg t env iso store).1 = idOf c t ++ ".json" := rfl

theorem create_lesson_writes (e s c : String) (tg : List String) (t : CTime)
    (env iso : String) (store : LessonStore) :
    ∃ r, (create_lesson e s c tg t env iso store).2 =
      alWrite store (create_lesson e s c tg t env iso store).1 r :=
  ⟨_, rfl⟩

theorem fmtMinute_data_length (t : CTime) :
    (fmtMinute t).data.length = 11 := rfl

theorem idOf_inj {c1 c2 : String} {t1 t2 : CTime}
    (h : idOf c1 t1 = idOf c2 t2) :
    fmtMinute t1 = fmtMinute t2 ∧ topicOf c1 = topicOf c2 := by
  have hd := congrArg String.data h
  simp only [idOf, String.data_append] at hd
  rw [List.append_assoc, List.append_assoc] at hd
  have h1 := List.append_inj hd
    (by rw [fmtMinute_data_length, fmtMinute_data_length])
  obtain ⟨hf, hrest⟩ := h1
  have h2 := List.append_inj hrest rfl
  exact ⟨String.ext hf, String.ext h2.2⟩

/-- Creation time of C2's first lesson. -/
def c2timeA : CTime := { y := 25, m := 10, d := 12, hh := 9, mm := 30, ss := 0 }

/-- Creation time of C2's second lesson: a different instant (45
seconds later) inside the same minute. -/
def c2timeB : CTime := { y := 25, m := 10, d := 12, hh := 9, mm := 30, ss := 45 }

/-- The store after C2's first capture into an empty lessons
directory. -/
def c2store1 : LessonStore :=
  (create_lesson "err A" "sol A" "workflow/git" [] c2timeA "envA" "iA" []).2

/-- C2's second capture, 45 seconds after the first, same category. -/
def c2out2 : String × LessonStore :=
  create_lesson "err B" "sol B" "workflow/git" [] c2timeB "envB" "iB" c2store1

/-- C2 counterexample: two distinct captures (different wall-clock
instants, different error texts) in the same minute with the same
category produce the same id, so the second `write_text` overwrites
the first record: the store still holds exactly one record and its
error text is the second lesson's. -/
theorem C2_id_unique_counterexample :
    ¬ c2timeA = c2timeB ∧
    c2out2.1 =
      (create_lesson "err A" "sol A" "workflow/git" [] c2timeA "envA" "iA"
        []).1 ∧
    c2out2.2.length = 1 ∧
    (alRead c2out2.2 c2out2.1).map (fun r => r.error) = some "err B" := by
  decide

/-- C2 (amended): lesson ids are unique only up to the minute-resolution
timestamp and the category topic: two `create_lesson` calls whose
formatted creation minutes differ, or whose category topics differ,
receive different ids (hence different file names), and a creation
never disturbs a record stored under any other file name. -/
theorem C2_id_amended (e1 s1 c1 : String) (tg1 : List String) (t1 : CTime)
    (env1 iso1 : String) (store1 : LessonStore)
    (e2 s2 c2 : String) (tg2 : List String) (t2 : CTime)
    (env2 iso2 : String) (store2 : LessonStore)
    (hdiff : ¬ fmtMinute t1 = fmtMinute t2 ∨ ¬ topicOf c1 = topicOf c2) :
    ¬ (create_lesson e1 s1 c1 tg1 t1 env1 iso1 store1).1 =
        (create_lesson e2 s2 c2 tg2 t2 env2 iso2 store2).1 ∧
    ∀ k, ¬ k = (create_lesson e1 s1 c1 tg1 t1 env1 iso1 store1).1 →
      alRead (create_lesson e1 s1 c1 tg1 t1 env1 iso1 store1).2 k =
        alRead store1 k := by
  constructor
  · intro hk
    rw [create_lesson_key, create_lesson_key] at hk
    have hdw := congrArg String.data hk
    rw [String.data_append, String.data_append] at hdw
    have hid : idOf c1 t1 = idOf c2 t2 :=
      String.ext (List.append_inj' hdw rfl).1
    rcases hdiff with hF | hT
    · exact hF (idOf_inj hid).1
    · exact hT (idOf_inj hid).2
  · intro k hk
    obtain ⟨r, hw⟩ :=
      create_lesson_writes e1 s1 c1 tg1 t1 env1 iso1 store1
    rw [hw]
    exact alRead_alWrite_ne store1 _ k r hk

/-- Witness for C2 (amended): same minute but different topics
(`workflow/git` vs `security/auth`) yields different ids. -/
theorem C2_id_amended_witness :
    ¬ (create_lesson "e1" "s1" "workflow/git" [] c2timeA "v" "i" []).1 =
      (create_lesson "e2" "s2" "security/auth" [] c2timeA "v" "i" []).1 :=
  (C2_id_amended "e1" "s1" "workflow/git" [] c2timeA "v" "i" []
    "e2" "s2" "security/auth" [] c2timeA "v" "i" []
    (Or.inr (by decide))).1

/-! ### Orchestrator fold lemmas -/

theorem mark_applied_read_ne (store : LessonStore) (k0 k now : String)
    (h : ¬ k = k0) :
    alRead (mark_applied store k0 now) k = alRead store k := by
  rcases hd : alRead store k0 with _ | d
  · simp [mark_applied, hd]
  · simp only [mark_applied, hd]
    exact alRead_alWrite_ne store k0 k _ h

theorem mark_applied_read_self (store : LessonStore) (k0 now : String)
    (d : LessonRec) (hd : alRead store k0 = some d) :
    alRead (mark_applied store k0 now) k0 = some (markRec d now) := by
  simp only [mark_applied, hd, markRec]
  exact alRead_alWrite_self store k0 _

theorem mark_applied_keys (store : LessonStore) (k0 now : String) :
    (mark_applied store k0 now).map Prod.fst = store.map Prod.fst := by
  rcases hd : alRead store k0 with _ | d
  · simp [mark_applied, hd]
  · simp only [mark_applied, hd]
    exact alWrite_keys_of_read store k0 _ d hd

theorem apply_lesson_id (l : LessonRec) (dir : String) (fs : FS) :
    (apply_lesson l dir fs).1.id = l.id := by
  by_cases hready : (analyze_lesson l).ready = true
  · rcases hread : alRead fs (targetPathOf dir l) with _ | content
    · simp only [targetPathOf] at hread
      simp [apply_lesson, hready, hread, failResult]
    · simp only [targetPathOf] at hread
      by_cases hsz :
          lineCount content + lineCount (_build_patch_block l) > MAX_LINES
      · simp [apply_lesson, hready, hread, hsz, failResult]
      · simp [apply_lesson, hready, hread, hsz, failResult]
  · simp [apply_lesson, hready, failResult]

theorem apply_list_cons_unready (now dir : String) (auto : Bool)
    (approve : String → Bool) (k : String) (l : LessonRec)
    (rest : List (String × LessonRec)) (store : LessonStore) (arts : FS)
    (hready : ¬ (analyze_lesson l).ready = true) :
    apply_list now dir auto approve ((k, l) :: rest) store arts =
      (failResult l.id "수동 처리 필요" ::
        (apply_list now dir auto approve rest store arts).1,
       (apply_list now dir auto approve rest store arts).2) := by
  simp only [apply_list]
  rw [if_pos hready]

theorem apply_list_cons_refused (now dir : String) (auto : Bool)
    (approve : String → Bool) (k : String) (l : LessonRec)
    (rest : List (String × LessonRec)) (store : LessonStore) (arts : FS)
    (hready : (analyze_lesson l).ready = true)
    (happr : ¬ auto = true ∧ ¬ approve l.id = true) :
    apply_list now dir auto approve ((k, l) :: rest) store arts =
      (failResult l.id "사용자가 거부함" ::
        (apply_list now dir auto approve rest store arts).1,
       (apply_list now dir auto approve rest store arts).2) := by
  simp only [apply_list]
  rw [if_neg (not_not_intro hready), if_pos happr]

theorem apply_list_cons_apply (now dir : String) (auto : Bool)
    (approve : String → Bool) (k : String) (l : LessonRec)
    (rest : List (String × LessonRec)) (store : LessonStore) (arts : FS)
    (hready : (analyze_lesson l).ready = true)
    (happr : ¬ (¬ auto = true ∧ ¬ approve l.id = true)) :
    apply_list now dir auto approve ((k, l) :: rest) store arts =
      ((apply_lesson l dir arts).1 ::
        (apply_list now dir auto approve rest
          (if (apply_lesson l dir arts).1.success = true then
            mark_applied store k now else store)
          (apply_lesson l dir arts).2).1,
       (apply_list now dir auto approve rest
          (if (apply_lesson l dir arts).1.success = true then
            mark_applied store k now else store)
          (apply_lesson l dir arts).2).2) := by
  simp only [apply_list]
  rw [if_neg (not_not_intro hready), if_neg happr]

theorem apply_list_read_untouched (now dir : String) (auto : Bool)
    (approve : String → Bool) (L : List (String × LessonRec))
    (store : LessonStore) (arts : FS) (k : String)
    (hk : ¬ k ∈ L.map Prod.fst) :
    alRead (apply_list now dir auto approve L store arts).2.1 k =
      alRead store k := by
  induction L generalizing store arts with
  | nil => rfl
  | cons hd rest ih =>
    obtain ⟨k0, l0⟩ := hd
    have hk0 : ¬ k = k0 := by
      intro hkk
      exact hk (by simp [hkk])
    have hkrest : ¬ k ∈ rest.map Prod.fst := by
      intro hm
      exact hk (List.mem_cons_of_mem _ hm)
    by_cases hready : (analyze_lesson l0).ready = true
    · by_cases happr : ¬ auto = true ∧ ¬ approve l0.id = true
      · rw [apply_list_cons_refused now dir auto approve k0 l0 rest store
          arts hready happr]
        exact ih store arts hkrest
      · rw [apply_list_cons_apply now dir auto approve k0 l0 rest store
          arts hready happr]
        by_cases hs : (apply_lesson l0 dir arts).1.success = true
        · rw [if_pos hs]
          rw [ih _ _ hkrest]
          exact mark_applied_read_ne store k0 k now hk0
        · rw [if_neg hs]
          exact ih store _ hkrest
    · rw [apply_list_cons_unready now dir auto approve k0 l0 rest store
        arts hready]
      exact ih store arts hkrest

theorem apply_list_keys (now dir : String) (auto : Bool)
    (approve : String → Bool) (L : List (String × LessonRec))
    (store : LessonStore) (arts : FS) :
    (apply_list now dir auto approve L store arts).2.1.map Prod.fst =
      store.map Prod.fst := by
  induction L generalizing store arts with
  | nil => rfl
  | cons hd rest ih =>
    obtain ⟨k0, l0⟩ := hd
    by_cases hready : (analyze_lesson l0).ready = true
    · by_cases happr : ¬ auto = true ∧ ¬ approve l0.id = true
      · rw [apply_list_cons_refused now dir auto approve k0 l0 rest store
          arts hready happr]
        exact ih store arts
      · rw [apply_list_cons_apply now dir auto approve k0 l0 rest store
          arts hready happr]
        by_cases hs : (apply_lesson l0 dir arts).1.success = true
        · rw [if_pos hs]
          rw [ih _ _]
          exact mark_applied_keys store k0 now
        · rw [if_neg hs]
          exact ih store _
    · rw [apply_list_cons_unready now dir auto approve k0 l0 rest store
        arts hready]
      exact ih store arts

theorem exists_read_of_mem_keys {store : LessonStore} {k : String}
    (h : k ∈ store.map Prod.fst) : ∃ r, alRead store k = some r := by
  induction store with
  | nil => simp at h
  | cons hd rest ih =>
    obtain ⟨q, v⟩ := hd
    by_cases hq : q = k
    · exact ⟨v, by simp [alRead, hq]⟩
    · have : k ∈ rest.map Prod.fst := by
        rcases List.mem_cons.mp h with h1 | h1
        · exact absurd h1.symm hq
        · exact h1
      obtain ⟨r, hr⟩ := ih this
      exact ⟨r, by simp [alRead, hq, hr]⟩

/-! ### Pending-list lemmas -/

theorem mem_pendingOf {store : LessonStore} {k : String} {r : LessonRec} :
    (k, r) ∈ pendingOf store ↔ (k, r) ∈ store ∧ r.applied = false := by
  simp [pendingOf, List.mem_filter, List.mem_mergeSort]

theorem pendingOf_keys_nodup {store : LessonStore}
    (h : (store.map Prod.fst).Nodup) :
    ((pendingOf store).map Prod.fst).Nodup := by
  have hperm : List.Perm
      (store.mergeSort (fun a b => charListLe a.1.data b.1.data)) store :=
    List.mergeSort_perm store _
  have h1 : ((store.mergeSort
      (fun a b => charListLe a.1.data b.1.data)).map Prod.fst).Nodup :=
    ((hperm.map Prod.fst).nodup_iff).mpr h
  exact ((List.filter_sublist _).map Prod.fst).nodup h1

theorem pendingOf_read {store : LessonStore} {k : String} {r : LessonRec}
    (hnd : (store.map Prod.fst).Nodup) (hm : (k, r) ∈ pendingOf store) :
    alRead store k = some r :=
  alRead_eq_some_of_mem hnd (mem_pendingOf.mp hm).1

theorem mem_pendingOf_of_read {store : LessonStore} {k : String}
    {r : LessonRec} (hr : alRead store k = some r)
    (hp : r.applied = false) : (k, r) ∈ pendingOf store :=
  mem_pendingOf.mpr ⟨mem_of_alRead_eq_some hr, hp⟩

theorem not_mem_pending_keys_of_applied {store : LessonStore} {k : String}
    {r : LessonRec} (hnd : (store.map Prod.fst).Nodup)
    (hr : alRead store k = some r) (ha : r.applied = true) :
    ¬ k ∈ (pendingOf store).map Prod.fst := by
  intro hmem
  obtain ⟨⟨k', r'⟩, hm, hk⟩ := List.mem_map.mp hmem
  cases hk
  have := pendingOf_read hnd hm
  rw [hr] at this
  have : r = r' := by injection this
  subst this
  rw [(mem_pendingOf.mp hm).2] at ha
  exact Bool.false_ne_true ha

/-! ### Artifact evolution across a run

A pipeline run only ever appends to `CATEGORY_MAP` targets and writes
sibling `.bak` files, so on every possible target path, existing
content only grows in line count and missing targets stay missing.
This is what makes an `apply_lesson` failure persist into later
attempts. -/

/-- Evolution order on artifact trees, restricted to the classifier's
target paths under a fixed root. -/
def ArtsLE (dir : String) (a0 a1 : FS) : Prop :=
  ∀ rel ∈ CATEGORY_MAP.map Prod.snd,
    (alRead a0 (dir ++ "/" ++ rel) = none →
      alRead a1 (dir ++ "/" ++ rel) = none) ∧
    (∀ c, alRead a0 (dir ++ "/" ++ rel) = some c →
      ∃ c', alRead a1 (dir ++ "/" ++ rel) = some c' ∧
        lineCount c ≤ lineCount c')

theorem ArtsLE_refl (dir : String) (a : FS) : ArtsLE dir a a := by
  intro rel _
  exact ⟨fun h => h, fun c h => ⟨c, h, le_refl _⟩⟩

theorem ArtsLE_trans {dir : String} {a b c : FS} (h1 : ArtsLE dir a b)
    (h2 : ArtsLE dir b c) : ArtsLE dir a c := by
  intro rel hrel
  obtain ⟨h1n, h1s⟩ := h1 rel hrel
  obtain ⟨h2n, h2s⟩ := h2 rel hrel
  refine ⟨fun h => h2n (h1n h), fun x hx => ?_⟩
  obtain ⟨y, hy, hxy⟩ := h1s x hx
  obtain ⟨z, hz, hyz⟩ := h2s y hy
  exact ⟨z, hz, le_trans hxy hyz⟩

theorem append_left_cancel_str {a b c : String} (h : a ++ b = a ++ c) :
    b = c := by
  have hd := congrArg String.data h
  rw [String.data_append, String.data_append] at hd
  exact String.ext (List.append_cancel_left hd)

/-- No classifier target equals another classifier target with the
backup suffix appended. -/
theorem vals_no_bak :
    ∀ rel ∈ CATEGORY_MAP.map Prod.snd,
      ∀ t ∈ CATEGORY_MAP.map Prod.snd, ¬ rel = t ++ ".bak" := by decide

/-- A ready lesson's resolved relative target is a `CATEGORY_MAP`
value. -/
theorem ready_target_mem (l : LessonRec)
    (h : (analyze_lesson l).ready = true) :
    (analyze_lesson l).target.getD "" ∈ CATEGORY_MAP.map Prod.snd := by
  rcases hc : categoryTarget l.category with _ | t
  · simp [analyze_lesson, hc] at h
  · have hne := categoryTarget_some_ne_empty hc
    have htg : (analyze_lesson l).target = some t := by
      simp [analyze_lesson, hc, hne]
    rw [htg]
    simp only [Option.getD_some]
    simp only [categoryTarget, Option.map_eq_some'] at hc
    obtain ⟨p, hp, hpt⟩ := hc
    exact hpt ▸ List.mem_map.mpr ⟨p, List.mem_of_find?_eq_some hp, rfl⟩

/-- One `apply_lesson` call, successful or not, only evolves the
artifact tree upward. -/
theorem ArtsLE_apply_lesson (l : LessonRec) (dir : String) (fs : FS) :
    ArtsLE dir fs (apply_lesson l dir fs).2 := by
  by_cases hs : (apply_lesson l dir fs).1.success = true
  · obtain ⟨content, hread, _, hstate, _⟩ :=
      apply_lesson_success_state l dir fs hs
    have hready : (analyze_lesson l).ready = true := by
      by_contra hr
      simp [apply_lesson, hr, failResult] at hs
    have htmem := ready_target_mem l hready
    rw [hstate]
    intro rel hrel
    by_cases heq :
        dir ++ "/" ++ rel = targetPathOf dir l
    · constructor
      · intro hn
        rw [heq] at hn
        rw [hread] at hn
        cases hn
      · intro c hc
        rw [heq] at hc ⊢
        rw [hread] at hc
        have hcc : c = content := by
          injection hc with hcc
          exact hcc.symm
        subst hcc
        refine ⟨c ++ _build_patch_block l, ?_, lineCount_le_append _ _⟩
        exact alRead_alWrite_self _ _ _
    · have hne_bak : ¬ dir ++ "/" ++ rel = backupPath (targetPathOf dir l) := by
        intro hbad
        rw [backupPath, targetPathOf,
          String.append_assoc (dir ++ "/")
            ((analyze_lesson l).target.getD "") ".bak"] at hbad
        have := append_left_cancel_str hbad
        exact vals_no_bak rel hrel _ htmem this
      have hr1 : alRead
          (alWrite (alWrite fs (backupPath (targetPathOf dir l)) content)
            (targetPathOf dir l) (content ++ _build_patch_block l))
          (dir ++ "/" ++ rel) = alRead fs (dir ++ "/" ++ rel) := by
        rw [alRead_alWrite_ne _ _ _ _ heq, alRead_alWrite_ne _ _ _ _ hne_bak]
      constructor
      · intro hn
        rw [hr1]
        exact hn
      · intro c hc
        rw [hr1]
        exact ⟨c, hc, le_refl _⟩
  · rw [apply_lesson_fail_state l dir fs hs]
    exact ArtsLE_refl dir fs

/-- The whole `apply_all` loop only evolves the artifact tree
upward. -/
theorem ArtsLE_apply_list (now dir : String) (auto : Bool)
    (approve : String → Bool) (L : List (String × LessonRec))
    (store : LessonStore) (arts : FS) :
    ArtsLE dir arts (apply_list now dir auto approve L store arts).2.2 := by
  induction L generalizing store arts with
  | nil => exact ArtsLE_refl dir arts
  | cons hd rest ih =>
    obtain ⟨k0, l0⟩ := hd
    by_cases hready : (analyze_lesson l0).ready = true
    · by_cases happr : ¬ auto = true ∧ ¬ approve l0.id = true
      · rw [apply_list_cons_refused now dir auto approve k0 l0 rest store
          arts hready happr]
        exact ih store arts
      · rw [apply_list_cons_apply now dir auto approve k0 l0 rest store
          arts hready happr]
        exact ArtsLE_trans (ArtsLE_apply_lesson l0 dir arts) (ih _ _)
    · rw [apply_list_cons_unready now dir auto approve k0 l0 rest store
        arts hready]
      exact ih store arts

/-- A lesson whose apply failed keeps failing on any evolved artifact
tree: unreadiness is tree-independent, a missing target stays missing,
and an exceeded size limit only grows. -/
theorem apply_fail_persists (l : LessonRec) (dir : String) {a0 a1 : FS}
    (hle : ArtsLE dir a0 a1)
    (hf : (apply_lesson l dir a0).1.success = false) :
    (apply_lesson l dir a1).1.success = false := by
  by_cases hready : (analyze_lesson l).ready = true
  · have htmem := ready_target_mem l hready
    obtain ⟨h0, h1⟩ := hle _ htmem
    rcases hr : alRead a0
        (dir ++ "/" ++ (analyze_lesson l).target.getD "") with _ | content
    · have hn := h0 hr
      simp [apply_lesson, hready, hn, failResult]
    · by_cases hsz : lineCount content +
          lineCount (_build_patch_block l) > MAX_LINES
      · obtain ⟨c', hc', hlc⟩ := h1 content hr
        have hsz' : lineCount c' +
            lineCount (_build_patch_block l) > MAX_LINES := by omega
        simp [apply_lesson, hready, hc', hsz', failResult]
      · simp [apply_lesson, hready, hr, hsz] at hf
  · simp [apply_lesson, hready, failResult]

/-- When every ready lesson in the list fails on the current artifact
tree, the loop changes nothing and reports only failures. -/
theorem apply_list_all_fail (now dir : String) (auto : Bool)
    (approve : String → Bool) (L : List (String × LessonRec))
    (store : LessonStore) (arts : FS)
    (hf : ∀ kl ∈ L, (analyze_lesson kl.2).ready = true →
      (apply_lesson kl.2 dir arts).1.success = false) :
    (apply_list now dir auto approve L store arts).2.1 = store ∧
    (apply_list now dir auto approve L store arts).2.2 = arts ∧
    ∀ res ∈ (apply_list now dir auto approve L store arts).1,
      res.success = false := by
  induction L with
  | nil => exact ⟨rfl, rfl, by simp [apply_list]⟩
  | cons hd rest ih =>
    obtain ⟨k0, l0⟩ := hd
    have hrest : ∀ kl ∈ rest, (analyze_lesson kl.2).ready = true →
        (apply_lesson kl.2 dir arts).1.success = false :=
      fun kl hm => hf kl (List.mem_cons_of_mem _ hm)
    obtain ⟨ihs, iha, ihr⟩ := ih hrest
    by_cases hready : (analyze_lesson l0).ready = true
    · have hfail := hf (k0, l0) (List.mem_cons_self _ _) hready
      by_cases happr : ¬ auto = true ∧ ¬ approve l0.id = true
      · rw [apply_list_cons_refused now dir auto approve k0 l0 rest store
          arts hready happr]
        refine ⟨ihs, iha, ?_⟩
        intro res hres
        rcases List.mem_cons.mp hres with h | h
        · rw [h]
          rfl
        · exact ihr res h
      · rw [apply_list_cons_apply now dir auto approve k0 l0 rest store
          arts hready happr]
        have hsn : ¬ (apply_lesson l0 dir arts).1.success = true := by
          rw [hfail]
          exact Bool.false_ne_true
        rw [if_neg hsn, apply_lesson_fail_state l0 dir arts hsn]
        refine ⟨ihs, iha, ?_⟩
        intro res hres
        rcases List.mem_cons.mp hres with h | h
        · rw [h]
          exact hfail
        · exact ihr res h
    · rw [apply_list_cons_unready now dir auto approve k0 l0 rest store
        arts hready]
      refine ⟨ihs, iha, ?_⟩
      intro res hres
      rcases List.mem_cons.mp hres with h | h
      · rw [h]
        rfl
      · exact ihr res h

/-- The core per-lesson account of the `apply_all` loop: every listed
lesson either keeps its record unchanged — and, in auto mode, if it
was ready its apply still fails on the final artifact tree — or is
marked applied with a matching successful outcome in the result
list. -/
theorem apply_list_processed (now dir : String) (auto : Bool)
    (approve : String → Bool) (L : List (String × LessonRec))
    (store : LessonStore) (arts : FS)
    (hnd : (L.map Prod.fst).Nodup)
    (hmem : ∀ kl ∈ L, alRead store kl.1 = some kl.2) :
    ∀ kl ∈ L,
      (alRead (apply_list now dir auto approve L store arts).2.1 kl.1 =
         some kl.2 ∧
       (auto = true → (analyze_lesson kl.2).ready = true →
         (apply_lesson kl.2 dir
           (apply_list now dir auto approve L store arts).2.2).1.success =
           false)) ∨
      (alRead (apply_list now dir auto approve L store arts).2.1 kl.1 =
         some (markRec kl.2 now) ∧
       ∃ res ∈ (apply_list now dir auto approve L store arts).1,
         res.id = kl.2.id ∧ res.success = true) := by
  induction L generalizing store arts with
  | nil => intro kl hkl; simp at hkl
  | cons hd rest ih =>
    obtain ⟨k0, l0⟩ := hd
    simp only [List.map_cons, List.nodup_cons] at hnd
    obtain ⟨hk0nd, hndrest⟩ := hnd
    have hk0rest : ¬ k0 ∈ rest.map Prod.fst := hk0nd
    have hread0 : alRead store k0 = some l0 :=
      hmem (k0, l0) (List.mem_cons_self _ _)
    intro kl hkl
    by_cases hready : (analyze_lesson l0).ready = true
    · by_cases happr : ¬ auto = true ∧ ¬ approve l0.id = true
      · rw [apply_list_cons_refused now dir auto approve k0 l0 rest store
          arts hready happr]
        rcases List.mem_cons.mp hkl with hkl0 | hklr
        · subst hkl0
          left
          constructor
          · rw [apply_list_read_untouched now dir auto approve rest store
              arts k0 hk0rest]
            exact hread0
          · intro hauto _
            exact absurd hauto happr.1
        · rcases ih store arts hndrest
              (fun kl hm => hmem kl (List.mem_cons_of_mem _ hm)) kl hklr with
            hA | hB
          · exact Or.inl hA
          · obtain ⟨hm1, res, hres, hid, hsucc⟩ := hB
            exact Or.inr ⟨hm1, res, List.mem_cons_of_mem _ hres, hid, hsucc⟩
      · rw [apply_list_cons_apply now dir auto approve k0 l0 rest store
          arts hready happr]
        by_cases hs : (apply_lesson l0 dir arts).1.success = true
        · rw [if_pos hs]
          rcases List.mem_cons.mp hkl with hkl0 | hklr
          · subst hkl0
            right
            constructor
            · rw [apply_list_read_untouched now dir auto approve rest
                (mark_applied store k0 now) (apply_lesson l0 dir arts).2 k0
                hk0rest]
              exact mark_applied_read_self store k0 now l0 hread0
            · refine ⟨(apply_lesson l0 dir arts).1,
                List.mem_cons_self _ _, ?_, hs⟩
              exact apply_lesson_id l0 dir arts
          · have hmem' : ∀ kl ∈ rest,
                alRead (mark_applied store k0 now) kl.1 = some kl.2 := by
              intro kl2 hm2
              have hk2 : ¬ kl2.1 = k0 := by
                intro hkk
                exact hk0rest (hkk ▸ List.mem_map.mpr ⟨kl2, hm2, rfl⟩)
              rw [mark_applied_read_ne store k0 kl2.1 now hk2]
              exact hmem kl2 (List.mem_cons_of_mem _ hm2)
            rcases ih (mark_applied store k0 now)
                (apply_lesson l0 dir arts).2 hndrest hmem' kl hklr with
              hA | hB
            · exact Or.inl hA
            · obtain ⟨hm1, res, hres, hid, hsucc⟩ := hB
              exact Or.inr ⟨hm1, res, List.mem_cons_of_mem _ hres, hid,
                hsucc⟩
        · rw [if_neg hs]
          have harts : (apply_lesson l0 dir arts).2 = arts :=
            apply_lesson_fail_state l0 dir arts hs
          rcases List.mem_cons.mp hkl with hkl0 | hklr
          · subst hkl0
            left
            constructor
            · rw [apply_list_read_untouched now dir auto approve rest store
                (apply_lesson l0 dir arts).2 k0 hk0rest]
              exact hread0
            · intro _ _
              have hle : ArtsLE dir arts (apply_list now dir auto approve
                  rest store (apply_lesson l0 dir arts).2).2.2 := by
                rw [harts]
                exact ArtsLE_apply_list now dir auto approve rest store arts
              exact apply_fail_persists l0 dir hle
                (Bool.eq_false_iff.mpr hs)
          · rcases ih store (apply_lesson l0 dir arts).2 hndrest
                (fun kl hm => hmem kl (List.mem_cons_of_mem _ hm)) kl
                hklr with hA | hB
            · exact Or.inl hA
            · obtain ⟨hm1, res, hres, hid, hsucc⟩ := hB
              exact Or.inr ⟨hm1, res, List.mem_cons_of_mem _ hres, hid,
                hsucc⟩
    · rw [apply_list_cons_unready now dir auto approve k0 l0 rest store
        arts hready]
      rcases List.mem_cons.mp hkl with hkl0 | hklr
      · subst hkl0
        left
        constructor
        · rw [apply_list_read_untouched now dir auto approve rest store
            arts k0 hk0rest]
          exact hread0
        · intro _ hr
          exact absurd hr hready
      · rcases ih store arts hndrest
            (fun kl hm => hmem kl (List.mem_cons_of_mem _ hm)) kl hklr with
          hA | hB
        · exact Or.inl hA
        · obtain ⟨hm1, res, hres, hid, hsucc⟩ := hB
          exact Or.inr ⟨hm1, res, List.mem_cons_of_mem _ hres, hid, hsucc⟩

/-- C9: `apply_all` changes a lesson record only by the pending to
applied transition, performed with the run's timestamp exactly when
that lesson's apply reported success; every other record — applied
lessons, unready lessons, refused lessons and failed applies — is
returned unchanged. -/
theorem C9_mark_only_on_success (now dir : String) (auto : Bool)
    (approve : String → Bool) (store : LessonStore) (arts : FS)
    (hnd : (store.map Prod.fst).Nodup) :
    ∀ k r, alRead store k = some r →
      alRead (apply_all now dir auto approve store arts).2.1 k = some r ∨
      (r.applied = false ∧
       alRead (apply_all now dir auto approve store arts).2.1 k =
         some (markRec r now) ∧
       ∃ res ∈ (apply_all now dir auto approve store arts).1,
         res.id = r.id ∧ res.success = true) := by
  intro k r hr
  by_cases hp : r.applied = false
  · have hm : (k, r) ∈ pendingOf store := mem_pendingOf_of_read hr hp
    rcases apply_list_processed now dir auto approve (pendingOf store)
        store arts (pendingOf_keys_nodup hnd)
        (fun kl hkl => pendingOf_read hnd hkl) (k, r) hm with hA | hB
    · exact Or.inl hA.1
    · exact Or.inr ⟨hp, hB.1, hB.2⟩
  · have ha : r.applied = true := by
      cases hap : r.applied
      · exact absurd hap hp
      · rfl
    left
    rw [apply_all, apply_list_read_untouched now dir auto approve
      (pendingOf store) store arts k
      (not_mem_pending_keys_of_applied hnd hr ha)]
    exact hr

/-- The pending lesson of C9's witness. -/
def lessonC9 : LessonRec :=
  { id := "251012-0930_git", error := "E9", solution := "S9",
    category := "workflow/git", tags := [], target_rule :=
    some "rules/memory.md", target_skill := none, applied := false,
    applied_at := none, source_env := "env", created_at := "2025" }

/-- The one-pending-lesson store of C9's witness. -/
def storeC9 : LessonStore := [("251012-0930_git.json", lessonC9)]

/-- The artifact tree of C9's witness. -/
def artsC9 : FS := [("/g/rules/memory.md", "m1\nm2")]

/-- Witness for C9 at a concrete store with one pending lesson. -/
theorem C9_mark_only_on_success_witness :
    alRead (apply_all "T" "/g" true (fun _ => true) storeC9 artsC9).2.1
        "251012-0930_git.json" =
      some (lessonC9) ∨
    (lessonC9.applied = false ∧
     alRead (apply_all "T" "/g" true (fun _ => true) storeC9 artsC9).2.1
         "251012-0930_git.json" =
       some (markRec lessonC9 "T") ∧
     ∃ res ∈ (apply_all "T" "/g" true (fun _ => true) storeC9 artsC9).1,
       res.id = lessonC9.id ∧ res.success = true) :=
  C9_mark_only_on_success "T" "/g" true (fun _ => true) storeC9 artsC9
    (by decide) "251012-0930_git.json" lessonC9 (by decide)

/-! ### Orchestrator abort claim -/

/-- C8: when the initial pull fails, `cmd_run` aborts immediately: the
world (repository, lesson store, artifact tree) is returned unchanged,
no per-lesson outcome is produced, no push is attempted, and the
report carries the failing pull result. -/
theorem C8_pull_failure_aborts (auto : Bool) (approve : String → Bool)
    (now dir : String) (w : World)
    (h : (sync_pull w.repo).success = false) :
    (cmd_run auto approve now dir w).2 = w ∧
    (cmd_run auto approve now dir w).1.results = [] ∧
    (cmd_run auto approve now dir w).1.push = none ∧
    (cmd_run auto approve now dir w).1.pull = sync_pull w.repo := by
  refine ⟨?_, ?_, ?_, ?_⟩ <;> simp [cmd_run, h]

/-- The world with a failing pull of C8's witness. -/
def worldC8 : World :=
  { repo := { isRepo := true, pullFails := true, commitFails := false,
              pushFails := false, head := none, commitCount := 0 },
    store := [], arts := [] }

/-- Witness for C8 at a concrete world whose pull fails. -/
theorem C8_pull_failure_aborts_witness :
    (sync_pull worldC8.repo).success = false ∧
    (cmd_run true (fun _ => true) "T" "/g" worldC8).2 = worldC8 ∧
    (cmd_run true (fun _ => true) "T" "/g" worldC8).1.results = [] ∧
    (cmd_run true (fun _ => true) "T" "/g" worldC8).1.push = none := by
  have hp : (sync_pull worldC8.repo).success = false := by decide
  have h := C8_pull_failure_aborts true (fun _ => true) "T" "/g" worldC8 hp
  exact ⟨hp, h.1, h.2.1, h.2.2.1⟩

/-! ### Sync-engine lemmas -/

theorem sync_pull_success_isRepo (r : Repo)
    (h : (sync_pull r).success = true) : r.isRepo = true := by
  by_cases hr : r.isRepo = true
  · exact hr
  · simp [sync_pull, hr] at h

theorem sync_pull_eq_of (r1 r2 : Repo) (h1 : r1.isRepo = r2.isRepo)
    (h2 : r1.pullFails = r2.pullFails) : sync_pull r1 = sync_pull r2 := by
  simp [sync_pull, h1, h2]

theorem sync_push_fields (r : Repo) (t : Tree) :
    (sync_push r t).2.isRepo = r.isRepo ∧
    (sync_push r t).2.pullFails = r.pullFails ∧
    (sync_push r t).2.commitFails = r.commitFails ∧
    (sync_push r t).2.pushFails = r.pushFails := by
  by_cases h1 : r.isRepo = true
  · by_cases h2 : r.head = some t
    · simp [sync_push, h1, h2]
    · by_cases h3 : r.commitFails = true
      · simp [sync_push, h1, h2, h3]
      · by_cases h4 : r.pushFails = true
        · simp [sync_push, h1, h2, h3, h4]
        · simp [sync_push, h1, h2, h3, h4]
  · simp [sync_push, h1]

theorem sync_push_idem (r : Repo) (t : Tree) :
    (sync_push (sync_push r t).2 t).2 = (sync_push r t).2 := by
  by_cases h1 : r.isRepo = true
  · by_cases h2 : r.head = some t
    · simp [sync_push, h1, h2]
    · by_cases h3 : r.commitFails = true
      · simp [sync_push, h1, h2, h3]
      · by_cases h4 : r.pushFails = true
        · simp [sync_push, h1, h2, h3, h4]
        · simp [sync_push, h1, h2, h3, h4]
  · simp [sync_push, h1]

/-! ### Orchestrator unfolding lemmas -/

theorem cmd_run_pull_fail (auto : Bool) (approve : String → Bool)
    (now dir : String) (w : World)
    (h : ¬ (sync_pull w.repo).success = true) :
    cmd_run auto approve now dir w =
      ({ pull := sync_pull w.repo, results := [], push := none }, w) := by
  simp only [cmd_run]
  rw [if_pos h]

theorem cmd_run_no_ready (auto : Bool) (approve : String → Bool)
    (now dir : String) (w : World)
    (hp : (sync_pull w.repo).success = true)
    (h0 : readyCount w.store = 0) :
    cmd_run auto approve now dir w =
      ({ pull := sync_pull w.repo, results := [], push := none }, w) := by
  simp only [cmd_run]
  rw [if_neg (not_not_intro hp), if_pos h0]

theorem cmd_run_main (auto : Bool) (approve : String → Bool)
    (now dir : String) (w : World)
    (hp : (sync_pull w.repo).success = true)
    (h0 : ¬ readyCount w.store = 0) :
    cmd_run auto approve now dir w =
      ({ pull := sync_pull w.repo,
         results := (apply_all now dir auto approve w.store w.arts).1,
         push := some (sync_push w.repo
           { lessons := (apply_all now dir auto approve w.store w.arts).2.1,
             arts :=
               (apply_all now dir auto approve w.store w.arts).2.2 }).1 },
       { repo := (sync_push w.repo
           { lessons := (apply_all now dir auto approve w.store w.arts).2.1,
             arts :=
               (apply_all now dir auto approve w.store w.arts).2.2 }).2,
         store := (apply_all now dir auto approve w.store w.arts).2.1,
         arts := (apply_all now dir auto approve w.store w.arts).2.2 }) := by
  simp only [cmd_run]
  rw [if_neg (not_not_intro hp), if_neg h0]

theorem apply_all_def (now dir : String) (auto : Bool)
    (approve : String → Bool) (store : LessonStore) (arts : FS) :
    apply_all now dir auto approve store arts =
      apply_list now dir auto approve (pendingOf store) store arts := rfl

/-- After an auto-mode `apply_all`, every lesson still pending is one
whose apply already failed, and it keeps failing on the resulting
artifact tree. -/
theorem run2_pending_fails (approve : String → Bool) (now1 dir : String)
    (w : World) (hnd : (w.store.map Prod.fst).Nodup) :
    ∀ kl ∈ pendingOf (apply_all now1 dir true approve w.store w.arts).2.1,
      (analyze_lesson kl.2).ready = true →
      (apply_lesson kl.2 dir
        (apply_all now1 dir true approve w.store w.arts).2.2).1.success =
        false := by
  intro kl hm hready
  obtain ⟨k, l⟩ := kl
  rw [apply_all_def] at hm ⊢
  have hkeys1 : (apply_list now1 dir true approve (pendingOf w.store)
      w.store w.arts).2.1.map Prod.fst = w.store.map Prod.fst :=
    apply_list_keys now1 dir true approve (pendingOf w.store) w.store w.arts
  have hnd1 : ((apply_list now1 dir true approve (pendingOf w.store)
      w.store w.arts).2.1.map Prod.fst).Nodup := by
    rw [hkeys1]
    exact hnd
  have hread1 : alRead (apply_list now1 dir true approve (pendingOf w.store)
      w.store w.arts).2.1 k = some l := pendingOf_read hnd1 hm
  have hp : l.applied = false := (mem_pendingOf.mp hm).2
  have hkmem : k ∈ w.store.map Prod.fst := by
    rw [← hkeys1]
    exact List.mem_map.mpr ⟨(k, l), mem_of_alRead_eq_some hread1, rfl⟩
  obtain ⟨r, hr0⟩ := exists_read_of_mem_keys hkmem
  cases hra : r.applied with
  | true =>
    have hunt := apply_list_read_untouched now1 dir true approve
      (pendingOf w.store) w.store w.arts k
      (not_mem_pending_keys_of_applied hnd hr0 hra)
    rw [hunt, hr0] at hread1
    have hlr : l = r := (Option.some_inj.mp hread1).symm
    rw [hlr, hra] at hp
    cases hp
  | false =>
    have hpend0 : (k, r) ∈ pendingOf w.store :=
      mem_pendingOf_of_read hr0 hra
    rcases apply_list_processed now1 dir true approve (pendingOf w.store)
        w.store w.arts (pendingOf_keys_nodup hnd)
        (fun kl2 hkl2 => pendingOf_read hnd hkl2) (k, r) hpend0 with hA | hB
    · obtain ⟨hAr, hAfail⟩ := hA
      rw [hread1] at hAr
      have hlr : l = r := Option.some_inj.mp hAr
      rw [hlr]
      exact hAfail rfl (hlr ▸ hready)
    · obtain ⟨hBr, _⟩ := hB
      rw [hread1] at hBr
      have hlr : l = markRec r now1 := Option.some_inj.mp hBr
      rw [hlr] at hp
      simp [markRec] at hp

/-- C5: running the full pipeline twice in succession in auto mode,
with nothing captured in between, performs zero successful patches in
the second run, leaves the artifact tree exactly as the first run left
it, and creates zero additional commits (the second push takes the
"nothing to sync" path or fails identically). -/
theorem C5_double_run_idempotent (approve : String → Bool)
    (now1 now2 dir : String) (w : World)
    (hnd : (w.store.map Prod.fst).Nodup) :
    ((cmd_run true approve now2 dir
        (cmd_run true approve now1 dir w).2).1.results).countP
      (fun r => r.success) = 0 ∧
    (cmd_run true approve now2 dir
        (cmd_run true approve now1 dir w).2).2.arts =
      (cmd_run true approve now1 dir w).2.arts ∧
    (cmd_run true approve now2 dir
        (cmd_run true approve now1 dir w).2).2.repo.commitCount =
      (cmd_run true approve now1 dir w).2.repo.commitCount := by
  by_cases hpull : (sync_pull w.repo).success = true
  · by_cases h0 : readyCount w.store = 0
    · have hw1 : (cmd_run true approve now1 dir w).2 = w := by
        rw [cmd_run_no_ready true approve now1 dir w hpull h0]
      rw [hw1, cmd_run_no_ready true approve now2 dir w hpull h0]
      exact ⟨rfl, rfl, rfl⟩
    · have hw1 : (cmd_run true approve now1 dir w).2 =
          { repo := (sync_push w.repo { lessons := (apply_all now1 dir true approve w.store w.arts).2.1, arts := (apply_all now1 dir true approve w.store w.arts).2.2 }).2, store := (apply_all now1 dir true approve w.store w.arts).2.1, arts := (apply_all now1 dir true approve w.store w.arts).2.2 } := by
        rw [cmd_run_main true approve now1 dir w hpull h0]
      rw [hw1]
      set S1 := (apply_all now1 dir true approve w.store w.arts).2.1
        with hS1
      set A1 := (apply_all now1 dir true approve w.store w.arts).2.2
        with hA1
      set T1 : Tree := { lessons := S1, arts := A1 } with hT1
      set R1 := (sync_push w.repo T1).2 with hR1
      have hpull2 : (sync_pull R1).success = true := by
        rw [sync_pull_eq_of R1 w.repo (sync_push_fields w.repo T1).1
          (sync_push_fields w.repo T1).2.1]
        exact hpull
      have hfail2 : ∀ kl ∈ pendingOf S1,
          (analyze_lesson kl.2).ready = true →
          (apply_lesson kl.2 dir A1).1.success = false :=
        run2_pending_fails approve now1 dir w hnd
      by_cases h20 : readyCount S1 = 0
      · rw [cmd_run_no_ready true approve now2 dir
          { repo := R1, store := S1, arts := A1 } hpull2 h20]
        exact ⟨rfl, rfl, rfl⟩
      · rw [cmd_run_main true approve now2 dir
          { repo := R1, store := S1, arts := A1 } hpull2 h20]
        obtain ⟨hstore2, harts2, hres2⟩ :=
          apply_list_all_fail now2 dir true approve (pendingOf S1) S1 A1
            hfail2
        refine ⟨?_, ?_, ?_⟩
        · show List.countP (fun r => r.success)
            (apply_list now2 dir true approve (pendingOf S1) S1 A1).1 = 0
          apply List.countP_eq_zero.mpr
          intro res hres
          have hres' := hres2 res hres
          simp [hres']
        · exact harts2
        · show (sync_push R1 { lessons := (apply_list now2 dir true approve (pendingOf S1) S1 A1).2.1, arts := (apply_list now2 dir true approve (pendingOf S1) S1 A1).2.2 }).2.commitCount = R1.commitCount
          rw [hstore2, harts2, ← hT1, hR1, sync_push_idem]
  · have hw1 : (cmd_run true approve now1 dir w).2 = w := by
      rw [cmd_run_pull_fail true approve now1 dir w hpull]
    rw [hw1, cmd_run_pull_fail true approve now2 dir w hpull]
    exact ⟨rfl, rfl, rfl⟩

/-- The pending lesson of C5's witness. -/
def lessonC5 : LessonRec :=
  { id := "251012-0940_git", error := "E5", solution := "S5",
    category := "workflow/git", tags := [], target_rule :=
    some "rules/memory.md", target_skill := none, applied := false,
    applied_at := none, source_env := "env", created_at := "2025" }

/-- The world of C5's witness: one pending ready lesson, its target
present, a healthy repository. -/
def worldC5 : World :=
  { repo := { isRepo := true, pullFails := false, commitFails := false,
              pushFails := false, head := none, commitCount := 0 },
    store := [("251012-0940_git.json", lessonC5)],
    arts := [("/g/rules/memory.md", "m1\nm2")] }

/-- Witness for C5 at a concrete world. -/
theorem C5_double_run_idempotent_witness :
    ((cmd_run true (fun _ => true) "T2" "/g"
        (cmd_run true (fun _ => true) "T1" "/g" worldC5).2).1.results).countP
      (fun r => r.success) = 0 ∧
    (cmd_run true (fun _ => true) "T2" "/g"
        (cmd_run true (fun _ => true) "T1" "/g" worldC5).2).2.repo.commitCount =
      (cmd_run true (fun _ => true) "T1" "/g" worldC5).2.repo.commitCount := by
  have h := C5_double_run_idempotent (fun _ => true) "T1" "T2" "/g" worldC5
    (by decide)
  exact ⟨h.1, h.2.2⟩

end Revolution
